import Mathlib

/-!
Verification of the EDNA backup orchestration engine (Python source under
`src/backend/`) via a shallow embedding: each Python function relevant to a
claim is transcribed into an executable Lean definition.  Python exceptions
are modelled with `Except String`, absence of a value with `Option`, and
observable side effects (sink writes, database operations, pipeline
invocations) with explicit traces.
-/

namespace Edna

/-- Shallow embedding of `classes/device.py` `Device` (pydantic model). -/
structure Device where
  name : String
  host : String
  device_type : String
  username : Option String := none
  password : Option String := none
  last_backup : Option String := none
  deriving Repr, DecidableEq

/-! ## Backup engine (`core/engine.py`, `BackupEngine.backup_device`)

The netmiko session is abstracted as a `send` function that either returns a
command's output or raises (`Except.error`); the session acquisition itself
is an `Except` as well (timeout / authentication / other connection errors
all land in `Except.error`).  The Python loop builds
`config_output.append(f"! Command: {cmd}\n{output}\n")` and finally joins
with `"\n"`; a raised exception inside the loop aborts the remaining
commands and is caught by the surrounding `except`, which returns `None`. -/

/-- The per-command loop body of `backup_device`: run the commands in order,
collecting `"! Command: " ++ cmd ++ "\n" ++ output ++ "\n"` segments, and
abort at the first command failure, propagating the exception. -/
def runCommands (send : String → Except String String) :
    List String → Except String (List String)
  | [] => .ok []
  | c :: cs =>
    match send c with
    | .error e => .error e
    | .ok out =>
      match runCommands send cs with
      | .error e => .error e
      | .ok rest => .ok (("! Command: " ++ c ++ "\n" ++ out ++ "\n") :: rest)

/-- Embeds `BackupEngine.backup_device`: connect, run the model's commands in
order, join the delimited segments with `"\n"`, post-process with the
model's `process_config`; every exception (connection, authentication,
command failure) is caught and converted to `none`. -/
def backup_device (conn : Except String (String → Except String String))
    (commands : List String) (process_config : String → String) :
    Option String :=
  match conn with
  | .error _ => none
  | .ok send =>
    match runCommands send commands with
    | .error _ => none
    | .ok segs => some (process_config (String.intercalate "\n" segs))

/-! ## Per-device unit of work (`core/scheduler.py`,
`BackupScheduler._backup_single_device`)

`getModel` models `plugin_manager.get_device_model` (may raise), `backupDev`
models `engine.backup_device` (returns `None` on failure), `saveFn s` models
sink `s`'s `save_backup` (may raise; the raise is caught per sink inside the
fan-out loop).  The whole body sits in a `try/except` that converts any
escaped exception to the failure marker `None`; the Lean function is total,
so no exception can escape, and the `saveAttempts` trace records every sink
save call in configuration order together with its outcome. -/

/-- Observable outcome of one `_backup_single_device` call: the returned
value (`some name` on success, `none` on failure) and the trace of per-sink
`save_backup` attempts, in sink configuration order. -/
structure SingleOutcome where
  result : Option String
  saveAttempts : List (Except String Unit)

/-- Embeds `BackupScheduler._backup_single_device`, with the model registry, the
engine and the sinks abstracted as parameters.  A model-resolution failure
or an engine failure yields `none` with no sink attempt; on an obtained
snapshot every sink's `save_backup` is attempted in order, each attempt's
exception caught individually, and `some device.name` is returned. -/
def backup_single_device {μ σ : Type} (device : Device)
    (getModel : String → Except String μ)
    (backupDev : Device → μ → Option String)
    (saveFn : σ → Device → String → Except String Unit)
    (sinks : List σ) : SingleOutcome :=
  match getModel device.device_type with
  | .error _ => ⟨none, []⟩
  | .ok m =>
    match backupDev device m with
    | none => ⟨none, []⟩
    | some config =>
      ⟨some device.name, sinks.map fun s => saveFn s device config⟩

/-- C8: for every command sequence, if every command succeeds the snapshot
is exactly `process_config` of the delimited concatenation in declared
order; if any command fails no snapshot at all is produced. -/
theorem backup_device_snapshot_shape (send : String → Except String String)
    (commands : List String) (process_config : String → String) :
    ((∀ c ∈ commands, (send c).isOk) →
      backup_device (.ok send) commands process_config =
        some (process_config (String.intercalate "\n" (commands.map fun c =>
          "! Command: " ++ c ++ "\n" ++ ((send c).toOption.getD "") ++ "\n"))))
    ∧ ((∃ c ∈ commands, ¬ (send c).isOk) →
      backup_device (.ok send) commands process_config = none) := by
  have hrun : ∀ cs : List String, (∀ c ∈ cs, (send c).isOk) →
      runCommands send cs = .ok (cs.map fun c =>
        "! Command: " ++ c ++ "\n" ++ ((send c).toOption.getD "") ++ "\n") := by
    intro l
    induction l with
    | nil => intro _; rfl
    | cons c cs ih =>
      intro h
      have hc : (send c).isOk := h c (List.mem_cons_self c cs)
      have hcs := ih (fun x hx => h x (List.mem_cons_of_mem c hx))
      cases hsc : send c with
      | error e => rw [hsc] at hc; simp [Except.isOk, Except.toBool] at hc
      | ok out =>
        simp only [runCommands, hsc, hcs, List.map_cons, Except.toOption,
          Option.getD_some]
  have hfail : ∀ l : List String, (∃ c ∈ l, ¬ (send c).isOk) →
      ∃ e, runCommands send l = .error e := by
    intro l
    induction l with
    | nil => rintro ⟨c, hc, -⟩; exact absurd hc (List.not_mem_nil c)
    | cons d cs ih =>
      rintro ⟨c, hc, hbad⟩
      cases hsd : send d with
      | error e => exact ⟨e, by simp [runCommands, hsd]⟩
      | ok out =>
        rcases List.mem_cons.mp hc with rfl | hmem
        · rw [hsd] at hbad; simp [Except.isOk, Except.toBool] at hbad
        · rcases ih ⟨c, hmem, hbad⟩ with ⟨e, he⟩
          exact ⟨e, by simp [runCommands, hsd, he]⟩
  constructor
  · intro h
    simp only [backup_device, hrun commands h]
  · intro h
    rcases hfail commands h with ⟨e, he⟩
    simp only [backup_device, he]

/-- Witness for C8 at a concrete session: both commands succeed, and the
snapshot is the delimited concatenation; a failing session yields `none`. -/
theorem backup_device_snapshot_shape_witness :
    backup_device (.ok fun c => .ok ("out-" ++ c)) ["show version", "show running-config"] id =
      some ("! Command: show version\nout-show version\n\n! Command: show running-config\nout-show running-config\n") :=
  (backup_device_snapshot_shape (fun c => .ok ("out-" ++ c))
    ["show version", "show running-config"] id).1 (by decide)

/-- Reduction of the returned value of `_backup_single_device` to a
bind/map chain over the collaborator outcomes. -/
theorem backup_single_device_result {μ σ : Type} (device : Device)
    (getModel : String → Except String μ)
    (backupDev : Device → μ → Option String)
    (saveFn : σ → Device → String → Except String Unit)
    (sinks : List σ) :
    (backup_single_device device getModel backupDev saveFn sinks).result =
      ((getModel device.device_type).toOption.bind
        (fun m => backupDev device m)).map (fun _ => device.name) := by
  unfold backup_single_device
  split <;> rename_i heq
  · simp [heq, Except.toOption]
  · split <;> rename_i hb
    · simp [heq, hb, Except.toOption]
    · simp [heq, hb, Except.toOption]

/-- Reduction of the per-sink save-attempt trace of
`_backup_single_device`. -/
theorem backup_single_device_attempts {μ σ : Type} (device : Device)
    (getModel : String → Except String μ)
    (backupDev : Device → μ → Option String)
    (saveFn : σ → Device → String → Except String Unit)
    (sinks : List σ) :
    (backup_single_device device getModel backupDev saveFn sinks).saveAttempts =
      match (getModel device.device_type).toOption.bind
        (fun m => backupDev device m) with
      | none => []
      | some config => sinks.map fun s => saveFn s device config := by
  unfold backup_single_device
  split <;> rename_i heq
  · simp [heq, Except.toOption]
  · split <;> rename_i hb
    · simp [heq, hb, Except.toOption]
    · simp [heq, hb, Except.toOption]

/-- C2: the per-device unit of work is total (no exception escapes: every
collaborator failure, modelled as `Except.error` or `none`, maps to a
normal return) and returns `some n` exactly when `n` is the device's name,
the model resolved, and the engine obtained a snapshot. -/
theorem backup_single_device_isolation {μ σ : Type} (device : Device)
    (getModel : String → Except String μ)
    (backupDev : Device → μ → Option String)
    (saveFn : σ → Device → String → Except String Unit)
    (sinks : List σ) (n : String) :
    (backup_single_device device getModel backupDev saveFn sinks).result = some n ↔
      n = device.name ∧ ∃ m, getModel device.device_type = .ok m ∧
        (backupDev device m).isSome := by
  rw [backup_single_device_result]
  cases hm : getModel device.device_type with
  | error e => simp [Except.toOption]
  | ok m =>
    simp only [Except.toOption, Option.some_bind, Except.ok.injEq]
    constructor
    · intro h
      rcases Option.map_eq_some'.mp h with ⟨a, ha, rfl⟩
      exact ⟨rfl, m, rfl, by simp [ha]⟩
    · rintro ⟨rfl, m2, rfl, hsome⟩
      rcases Option.isSome_iff_exists.mp hsome with ⟨a, ha⟩
      simp [ha]

/-- C4: when a snapshot is obtained, every configured sink's `save_backup`
is attempted, sequentially in sink configuration order, independently of
individual write outcomes (`saveFn` is arbitrary and may fail on every
sink), and the device still reports success. -/
theorem backup_fanout_delivery {μ σ : Type} (device : Device)
    (getModel : String → Except String μ)
    (backupDev : Device → μ → Option String)
    (saveFn : σ → Device → String → Except String Unit)
    (sinks : List σ) (m : μ) (config : String)
    (h1 : getModel device.device_type = .ok m)
    (h2 : backupDev device m = some config) :
    (backup_single_device device getModel backupDev saveFn sinks).saveAttempts =
      sinks.map (fun s => saveFn s device config)
    ∧ (backup_single_device device getModel backupDev saveFn sinks).result =
      some device.name := by
  constructor
  · rw [backup_single_device_attempts, h1]
    simp [Except.toOption, h2]
  · rw [backup_single_device_result, h1]
    simp [Except.toOption, h2]

/-- Witness for C4: two sinks whose writes both fail; both are attempted in
order and the device is still reported as succeeded. -/
theorem backup_fanout_delivery_witness :
    (backup_single_device ⟨"r1", "10.0.0.1", "cisco_ios", none, none, none⟩
      (fun _ => Except.ok ()) (fun _ _ => some "cfg")
      (fun (_ : Unit) _ _ => Except.error "disk full") [(), ()]).saveAttempts =
      [(), ()].map (fun _ => Except.error "disk full")
    ∧ (backup_single_device ⟨"r1", "10.0.0.1", "cisco_ios", none, none, none⟩
      (fun _ => Except.ok ()) (fun _ _ => some "cfg")
      (fun (_ : Unit) _ _ => Except.error "disk full") [(), ()]).result =
      some "r1" :=
  backup_fanout_delivery ⟨"r1", "10.0.0.1", "cisco_ios", none, none, none⟩
    (fun _ => Except.ok ()) (fun _ _ => some "cfg")
    (fun (_ : Unit) _ _ => Except.error "disk full") [(), ()] () "cfg" rfl rfl

/-! ## Orchestrator (`core/scheduler.py`, `BackupScheduler.run_backup`
and `BackupScheduler.sync_devices`)

Inventory sources are abstracted as the outcome of
`load_input_module(...).get_devices()` (a device list, or an exception that
excludes only that source); sink resolution likewise.  Database calls are
recorded in a `DbOp` trace; `upsertRaises` models `upsert_devices` raising,
which the surrounding `try/except` converts into the all-zero result.
Sink writes and device sessions happen only inside the per-device unit of
work, so `pipelineCalls` (the devices submitted to the worker pool) being
empty means no sink write and no session attempt occurred.  The thread
pool's `as_completed` order only feeds commutative counter increments, so
counting over the device list in order is observationally equal. -/

/-- A database call performed by the scheduler, as recorded in a trace. -/
inductive DbOp where
  | upsert (devices : List Device)
  | sweep (hours : Nat)
  deriving Repr, DecidableEq

/-- Aggregate result of one run (`{'success': _, 'failed': _, 'total': _}`). -/
structure RunResult where
  success : Nat
  failed : Nat
  total : Nat
  deriving Repr, DecidableEq

/-- Observable outcome of one `run_backup` call: the returned counts, the
devices handed to the worker pool, and the database operations performed. -/
structure RunOutcome where
  result : RunResult
  pipelineCalls : List Device
  dbOps : List DbOp
  deriving Repr, DecidableEq

/-- The source-collection loop shared by `run_backup` and `sync_devices`:
each source's devices extend the accumulator; a failing source is logged
and skipped. -/
def collectDevices (sources : List (Except String (List Device))) :
    List Device :=
  sources.foldl (fun acc s => match s with
    | .ok ds => acc ++ ds
    | .error _ => acc) []

/-- The sink-resolution loop of `run_backup`: each successfully loaded
output module is appended; a failing one is logged and skipped. -/
def collectSinks {σ : Type} (sinkSpecs : List (Except String σ)) : List σ :=
  sinkSpecs.foldl (fun acc s => match s with
    | .ok m => acc ++ [m]
    | .error _ => acc) []

/-- Embeds `BackupScheduler.run_backup`: collect devices (empty → all-zero result,
before any sink is resolved), resolve sinks (none → `{0, 0, total}`, before
any pipeline work), back up every device, count outcomes, upsert the full
device list; a run-level exception (the upsert raising) is caught and
yields the all-zero result. -/
def run_backup {σ : Type} (sources : List (Except String (List Device)))
    (sinkSpecs : List (Except String σ))
    (backupOne : Device → List σ → Option String)
    (upsertRaises : Bool) : RunOutcome :=
  let all_devices := collectDevices sources
  if all_devices.isEmpty then ⟨⟨0, 0, 0⟩, [], []⟩
  else
    let output_modules := collectSinks sinkSpecs
    if output_modules.isEmpty then ⟨⟨0, 0, all_devices.length⟩, [], []⟩
    else
      let outcomes := all_devices.map fun d => backupOne d output_modules
      let res : RunResult :=
        ⟨(outcomes.filter Option.isSome).length,
         (outcomes.filter Option.isNone).length,
         all_devices.length⟩
      if upsertRaises then ⟨⟨0, 0, 0⟩, all_devices, []⟩
      else ⟨res, all_devices, [DbOp.upsert all_devices]⟩

/-- Embeds `BackupScheduler.sync_devices`: collect devices from all sources, upsert
them when any were obtained, then call `remove_stale_devices(hours=24)`;
an upsert exception aborts the `try` block, skipping the sweep. -/
def sync_devices (sources : List (Except String (List Device)))
    (upsertRaises : Bool) : List DbOp :=
  let all_devices := collectDevices sources
  if all_devices.isEmpty then [DbOp.sweep 24]
  else if upsertRaises then []
  else [DbOp.upsert all_devices, DbOp.sweep 24]

/-- C3 counterexample: a fully ordinary backup run (one device obtained,
one sink resolved, upsert succeeding) performs exactly one database
operation, the upsert — no staleness sweep of any kind. -/
theorem run_backup_performs_no_sweep :
    (run_backup (σ := Unit)
      [Except.ok [⟨"r1", "10.0.0.1", "cisco_ios", none, none, none⟩]]
      [Except.ok ()] (fun d _ => some d.name) false).dbOps =
      [DbOp.upsert [⟨"r1", "10.0.0.1", "cisco_ios", none, none, none⟩]] := by
  decide

/-- C3 amended: the staleness sweep lives in the device-sync operation, not
in the backup run: `run_backup` never emits a sweep, while `sync_devices`
performs the 24-hour sweep for every source outcome whenever its upsert
does not raise. -/
theorem staleness_sweep_location {σ : Type}
    (sources : List (Except String (List Device)))
    (sinkSpecs : List (Except String σ))
    (backupOne : Device → List σ → Option String) (upsertRaises : Bool)
    (sources2 : List (Except String (List Device))) :
    (∀ op ∈ (run_backup sources sinkSpecs backupOne upsertRaises).dbOps,
      ∀ h, op ≠ DbOp.sweep h)
    ∧ DbOp.sweep 24 ∈ sync_devices sources2 false := by
  constructor
  · intro op hop h
    simp only [run_backup] at hop
    split at hop
    · simp at hop
    · split at hop
      · simp at hop
      · split at hop
        · simp at hop
        · simp only [List.mem_singleton] at hop
          subst hop
          simp
  · have hsync : sync_devices sources2 false =
        if (collectDevices sources2).isEmpty then [DbOp.sweep 24]
        else [DbOp.upsert (collectDevices sources2), DbOp.sweep 24] := by
      simp [sync_devices]
    rw [hsync]
    split <;> simp

/-- Witness for the amended C3 at concrete inputs: an ordinary run's sole
database operation is not a sweep, and a concrete sync performs the
24-hour sweep. -/
theorem staleness_sweep_location_witness :
    DbOp.upsert [⟨"r1", "10.0.0.1", "cisco_ios", none, none, none⟩] ≠
      DbOp.sweep 24
    ∧ DbOp.sweep 24 ∈ sync_devices
        [Except.ok [⟨"r1", "10.0.0.1", "cisco_ios", none, none, none⟩]] false :=
  ⟨(staleness_sweep_location (σ := Unit)
      [Except.ok [⟨"r1", "10.0.0.1", "cisco_ios", none, none, none⟩]]
      [Except.ok ()] (fun d _ => some d.name) false
      [Except.ok [⟨"r1", "10.0.0.1", "cisco_ios", none, none, none⟩]]).1
      (DbOp.upsert [⟨"r1", "10.0.0.1", "cisco_ios", none, none, none⟩])
      (by decide) 24,
   (staleness_sweep_location (σ := Unit)
      [Except.ok [⟨"r1", "10.0.0.1", "cisco_ios", none, none, none⟩]]
      [Except.ok ()] (fun d _ => some d.name) false
      [Except.ok [⟨"r1", "10.0.0.1", "cisco_ios", none, none, none⟩]]).2⟩

/-- C7: a run that obtains zero devices returns all-zero counts with no
pipeline invocation (hence no sink write); a run that obtains devices but
resolves zero sinks returns `{0, 0, N}` with no pipeline invocation (hence
no device session attempt). -/
theorem run_backup_empty_cases {σ : Type}
    (sources : List (Except String (List Device)))
    (sinkSpecs : List (Except String σ))
    (backupOne : Device → List σ → Option String) (upsertRaises : Bool) :
    (collectDevices sources = [] →
      run_backup sources sinkSpecs backupOne upsertRaises =
        ⟨⟨0, 0, 0⟩, [], []⟩)
    ∧ (collectDevices sources ≠ [] → collectSinks sinkSpecs = [] →
      run_backup sources sinkSpecs backupOne upsertRaises =
        ⟨⟨0, 0, (collectDevices sources).length⟩, [], []⟩) := by
  constructor
  · intro h
    simp [run_backup, h]
  · intro hN hs
    cases hd : collectDevices sources with
    | nil => exact absurd hd hN
    | cons a l => simp [run_backup, hd, hs]

/-- Witness for C7: a run whose only source fails yields `{0,0,0}` with no
pipeline call; a run with one device and an unresolvable sink yields
`{0,0,1}` with no pipeline call. -/
theorem run_backup_empty_cases_witness :
    run_backup (σ := Unit) [Except.error "netbox down"] [Except.ok ()]
      (fun d _ => some d.name) false = ⟨⟨0, 0, 0⟩, [], []⟩
    ∧ run_backup (σ := Unit)
      [Except.ok [⟨"r1", "10.0.0.1", "cisco_ios", none, none, none⟩]]
      [Except.error "bad sink"] (fun d _ => some d.name) false =
      ⟨⟨0, 0, (collectDevices
        [Except.ok [⟨"r1", "10.0.0.1", "cisco_ios", none, none, none⟩]]).length⟩,
        [], []⟩ :=
  ⟨(run_backup_empty_cases [Except.error "netbox down"] [Except.ok ()]
      (fun d _ => some d.name) false).1 rfl,
   (run_backup_empty_cases
      [Except.ok [⟨"r1", "10.0.0.1", "cisco_ios", none, none, none⟩]]
      [Except.error "bad sink"] (fun d _ => some d.name) false).2
      (by decide) rfl⟩

/-- Counting helper: the successes and the failures of a list of optional
outcomes partition it. -/
theorem length_filter_isSome_add_isNone {α : Type} (l : List (Option α)) :
    (l.filter Option.isSome).length + (l.filter Option.isNone).length =
      l.length := by
  induction l with
  | nil => rfl
  | cons x xs ih =>
    cases x <;> simp [List.filter, Option.isSome, Option.isNone] <;> omega

/-- C10: once a run has devices and sinks, if the final upsert does not
raise then the returned counts satisfy `success + failed = total` with
`total` the number of loaded devices; and on a run-level exception the run
returns the all-zero result instead of raising (the Lean embedding is a
total function: every failure path returns normally). -/
theorem run_backup_count_invariant {σ : Type}
    (sources : List (Except String (List Device)))
    (sinkSpecs : List (Except String σ))
    (backupOne : Device → List σ → Option String) (upsertRaises : Bool)
    (hd : collectDevices sources ≠ [])
    (hs : collectSinks sinkSpecs ≠ []) :
    (upsertRaises = false →
      (run_backup sources sinkSpecs backupOne upsertRaises).result.success
        + (run_backup sources sinkSpecs backupOne upsertRaises).result.failed
        = (run_backup sources sinkSpecs backupOne upsertRaises).result.total
      ∧ (run_backup sources sinkSpecs backupOne upsertRaises).result.total
        = (collectDevices sources).length)
    ∧ (upsertRaises = true →
      (run_backup sources sinkSpecs backupOne upsertRaises).result =
        ⟨0, 0, 0⟩) := by
  have hd' : (collectDevices sources).isEmpty = false := by
    cases h : collectDevices sources with
    | nil => exact absurd h hd
    | cons a l => rfl
  have hs' : (collectSinks sinkSpecs).isEmpty = false := by
    cases h : collectSinks sinkSpecs with
    | nil => exact absurd h hs
    | cons a l => rfl
  constructor
  · rintro rfl
    constructor
    · have hcount := length_filter_isSome_add_isNone
        ((collectDevices sources).map fun d => backupOne d (collectSinks sinkSpecs))
      simp only [run_backup, hd', hs', Bool.false_eq_true, if_false]
      simpa using hcount
    · simp only [run_backup, hd', hs', Bool.false_eq_true, if_false]
  · rintro rfl
    simp only [run_backup, hd', hs', Bool.false_eq_true, if_false, if_true]

/-- Witness for C10 at a concrete run: two devices, one succeeding and one
failing, give `1 + 1 = 2` with total `2`. -/
theorem run_backup_count_invariant_witness :
    (run_backup (σ := Unit)
      [Except.ok [⟨"r1", "10.0.0.1", "cisco_ios", none, none, none⟩,
                  ⟨"r2", "10.0.0.2", "cisco_ios", none, none, none⟩]]
      [Except.ok ()]
      (fun d _ => if d.name = "r1" then some d.name else none) false).result.success
      + (run_backup (σ := Unit)
      [Except.ok [⟨"r1", "10.0.0.1", "cisco_ios", none, none, none⟩,
                  ⟨"r2", "10.0.0.2", "cisco_ios", none, none, none⟩]]
      [Except.ok ()]
      (fun d _ => if d.name = "r1" then some d.name else none) false).result.failed
      = (run_backup (σ := Unit)
      [Except.ok [⟨"r1", "10.0.0.1", "cisco_ios", none, none, none⟩,
                  ⟨"r2", "10.0.0.2", "cisco_ios", none, none, none⟩]]
      [Except.ok ()]
      (fun d _ => if d.name = "r1" then some d.name else none) false).result.total
    ∧ (run_backup (σ := Unit)
      [Except.ok [⟨"r1", "10.0.0.1", "cisco_ios", none, none, none⟩,
                  ⟨"r2", "10.0.0.2", "cisco_ios", none, none, none⟩]]
      [Except.ok ()]
      (fun d _ => if d.name = "r1" then some d.name else none) false).result.total
      = (collectDevices
          [Except.ok [⟨"r1", "10.0.0.1", "cisco_ios", none, none, none⟩,
                      ⟨"r2", "10.0.0.2", "cisco_ios", none, none, none⟩]]).length :=
  (run_backup_count_invariant
    [Except.ok [⟨"r1", "10.0.0.1", "cisco_ios", none, none, none⟩,
                ⟨"r2", "10.0.0.2", "cisco_ios", none, none, none⟩]]
    [Except.ok ()]
    (fun d _ => if d.name = "r1" then some d.name else none) false
    (by decide) (by decide)).1 rfl

/-! ## Capability registry (`core/plugin_manager.py`, `PluginManager`)

`load_input_module` / `load_output_module`: a cache lookup keyed by the
type string returns the cached instance unchanged; on a miss the
constructor (import + class lookup + `cls(config)`, abstracted as
`construct`, which may raise) is called and the instance cached.  The
constructor is a parameter precisely so the theorems can quantify over a
*different* configuration on the second call. -/

/-- The two instance caches of `PluginManager.__init__` (the model cache is
modelled separately with `get_device_model`). -/
structure PluginManager (ι ω : Type) where
  input_cache : List (String × ι)
  output_cache : List (String × ω)

/-- Embeds `PluginManager.load_input_module`: return the cached instance for
`module_type` if present; otherwise construct one from the configuration
(re-raising a constructor failure) and cache it. -/
def load_input_module {ι ω κ : Type} (pm : PluginManager ι ω)
    (module_type : String) (config : κ)
    (construct : String → κ → Except String ι) :
    Except String (ι × PluginManager ι ω) :=
  match pm.input_cache.find? (fun p => p.1 == module_type) with
  | some p => .ok (p.2, pm)
  | none =>
    match construct module_type config with
    | .ok inst =>
      .ok (inst, { pm with input_cache := (module_type, inst) :: pm.input_cache })
    | .error e => .error e

/-- Embeds `PluginManager.load_output_module`: identical shape over the output
cache. -/
def load_output_module {ι ω κ : Type} (pm : PluginManager ι ω)
    (module_type : String) (config : κ)
    (construct : String → κ → Except String ω) :
    Except String (ω × PluginManager ι ω) :=
  match pm.output_cache.find? (fun p => p.1 == module_type) with
  | some p => .ok (p.2, pm)
  | none =>
    match construct module_type config with
    | .ok inst =>
      .ok (inst, { pm with output_cache := (module_type, inst) :: pm.output_cache })
    | .error e => .error e

/-- C5: after a successful load of a type name, loading the same type name
again — with any other configuration and even any other constructor —
returns the exact first instance and leaves the registry unchanged, for
inventory sources and storage sinks alike. -/
theorem plugin_construction_once {ι ω κ : Type}
    (pm pm₁ qm qm₁ : PluginManager ι ω) (ty : String) (cfg1 cfg2 : κ)
    (c1 c2 : String → κ → Except String ι)
    (d1 d2 : String → κ → Except String ω) (i : ι) (o : ω) :
    (load_input_module pm ty cfg1 c1 = .ok (i, pm₁) →
      load_input_module pm₁ ty cfg2 c2 = .ok (i, pm₁))
    ∧ (load_output_module qm ty cfg1 d1 = .ok (o, qm₁) →
      load_output_module qm₁ ty cfg2 d2 = .ok (o, qm₁)) := by
  constructor
  · intro hin
    unfold load_input_module at hin ⊢
    cases hfind : pm.input_cache.find? (fun p => p.1 == ty) with
    | some p =>
      rw [hfind] at hin
      injection hin with h
      injection h with h1 h2
      subst h2
      rw [hfind]
      simp [h1]
    | none =>
      rw [hfind] at hin
      cases hc : c1 ty cfg1 with
      | error e => rw [hc] at hin; exact Except.noConfusion hin
      | ok j =>
        rw [hc] at hin
        injection hin with h
        injection h with h1 h2
        subst h1
        subst h2
        simp [List.find?]
  · intro hout
    unfold load_output_module at hout ⊢
    cases hfind : qm.output_cache.find? (fun p => p.1 == ty) with
    | some p =>
      rw [hfind] at hout
      injection hout with h
      injection h with h1 h2
      subst h2
      rw [hfind]
      simp [h1]
    | none =>
      rw [hfind] at hout
      cases hc : d1 ty cfg1 with
      | error e => rw [hc] at hout; exact Except.noConfusion hout
      | ok j =>
        rw [hc] at hout
        injection hout with h
        injection h with h1 h2
        subst h1
        subst h2
        simp [List.find?]

/-- Witness for C5: an instance recording the configuration it was built
from; the second call passes a different configuration and still gets the
instance built from the first. -/
theorem plugin_construction_once_witness :
    load_input_module (⟨[("netbox", "netbox:cfgA")], []⟩ : PluginManager String String)
      "netbox" "cfgB" (fun t c => .ok (t ++ ":" ++ c)) =
      .ok ("netbox:cfgA", ⟨[("netbox", "netbox:cfgA")], []⟩)
    ∧ load_output_module (⟨[], [("filesystem", "filesystem:cfgA")]⟩ : PluginManager String String)
      "filesystem" "cfgB" (fun t c => .ok (t ++ ":" ++ c)) =
      .ok ("filesystem:cfgA", ⟨[], [("filesystem", "filesystem:cfgA")]⟩) :=
  ⟨(plugin_construction_once ⟨[], []⟩ ⟨[("netbox", "netbox:cfgA")], []⟩
      ⟨[], []⟩ ⟨[], [("filesystem", "filesystem:cfgA")]⟩ "netbox" "cfgA" "cfgB"
      (fun t c => .ok (t ++ ":" ++ c)) (fun t c => .ok (t ++ ":" ++ c))
      (fun t c => .ok (t ++ ":" ++ c)) (fun t c => .ok (t ++ ":" ++ c))
      "netbox:cfgA" "netbox:cfgA").1 rfl,
   (plugin_construction_once ⟨[], []⟩ ⟨[], []⟩
      ⟨[], []⟩ ⟨[], [("filesystem", "filesystem:cfgA")]⟩ "filesystem" "cfgA" "cfgB"
      (fun t c => .ok (t ++ ":" ++ c)) (fun t c => .ok (t ++ ":" ++ c))
      (fun t c => .ok (t ++ ":" ++ c)) (fun t c => .ok (t ++ ":" ++ c))
      "filesystem:cfgA" "filesystem:cfgA").2 rfl⟩

/-! ## Device-model resolution (`core/plugin_manager.py`,
`PluginManager.get_device_model`, and `modules/models/*.py`)

The models directory is embedded as a table mapping each module stem to the
model classes it defines, with each class's `get_commands` list and
`process_config` (identity everywhere: the abstract base returns the input
unchanged and every concrete model defers to it or returns it as-is; the
IOS-XE, Fortigate/Fortinet and Mikrotik aliases are subclasses with `pass`
bodies, hence the same command list as their base).  Stage 1 of resolution
imports the module named exactly `device_type` and looks up the derived
class name in it; on `ModuleNotFoundError` stage 2 scans every model module
for the class name.  A class-name miss inside an existing module, or a scan
miss, falls through to the final `raise`. -/

/-- A model implementation: ordered command list plus post-processing. -/
structure DeviceModelImpl where
  commands : List String
  process_config : String → String

/-- Model of `modules/models/cisco_ios.py` `CiscoIos` (and its `CiscoXe` alias). -/
def ciscoIosModel : DeviceModelImpl :=
  ⟨["show version", "show running-config"], id⟩

/-- Model of `modules/models/cisco_nxos.py` `CiscoNxos`. -/
def ciscoNxosModel : DeviceModelImpl :=
  ⟨["show version", "show inventory", "show running-config"], id⟩

/-- Model of `modules/models/cisco_s300.py` `CiscoS300`. -/
def ciscoS300Model : DeviceModelImpl :=
  ⟨["show running-config"], id⟩

/-- Model of `modules/models/fortios.py` `Fortios` (and aliases). -/
def fortiosModel : DeviceModelImpl :=
  ⟨["get system status", "show | grep ."], id⟩

/-- Model of `modules/models/routeros.py` `Routeros` (and aliases). -/
def routerosModel : DeviceModelImpl :=
  ⟨["/system resource print", "/system package update print",
    "/system routerboard print", "/export"], id⟩

/-- The `modules/models` directory: module stem → classes defined in it
(aliases are `pass`-bodied subclasses and therefore share the base's
command list). -/
def modelModules : List (String × List (String × DeviceModelImpl)) :=
  [("cisco_ios", [("CiscoIos", ciscoIosModel), ("CiscoXe", ciscoIosModel)]),
   ("cisco_nxos", [("CiscoNxos", ciscoNxosModel)]),
   ("cisco_s300", [("CiscoS300", ciscoS300Model)]),
   ("fortios", [("Fortios", fortiosModel), ("Fortigate", fortiosModel),
                ("Fortinet", fortiosModel)]),
   ("routeros", [("Routeros", routerosModel), ("Mikrotik", routerosModel),
                 ("MikrotikRouteros", routerosModel)])]

/-- Python `str.capitalize()`: first character upper-cased, the rest
lower-cased. -/
def pyCapitalize (word : List Char) : List Char :=
  match word with
  | [] => []
  | c :: cs => c.toUpper :: cs.map Char.toLower

/-- Python `split('_')` on a character list (keeps empty segments, and
yields one empty segment on the empty string, as Python does). -/
def splitUnderscore : List Char → List (List Char)
  | [] => [[]]
  | c :: cs =>
    match splitUnderscore cs with
    | [] => [[c]]
    | w :: ws => if c = '_' then [] :: w :: ws else (c :: w) :: ws

/-- The class-name derivation
`''.join(word.capitalize() for word in device_type.split('_'))`. -/
def className (device_type : String) : String :=
  String.mk (((splitUnderscore device_type.data).map pyCapitalize).flatten)

/-- The stage-2 fallback: scan every model module for one defining the
class name (the per-module `try/except: continue` skips nothing here
because no embedded constructor raises). -/
def scanModelModules (cname : String) :
    List (String × List (String × DeviceModelImpl)) → Option DeviceModelImpl
  | [] => none
  | f :: fs =>
    match f.2.find? (fun c => c.1 == cname) with
    | some c => some c.2
    | none => scanModelModules cname fs

/-- Embeds `PluginManager.get_device_model`: cache hit, else stage-1 exact-module
lookup (a class-name miss inside an existing module raises
`AttributeError`, caught by the generic handler, and falls through to the
final raise without scanning), else on `ModuleNotFoundError` the stage-2
scan; a miss in both stages raises. -/
def get_device_model (cache : List (String × DeviceModelImpl))
    (device_type : String) :
    Except String (DeviceModelImpl × List (String × DeviceModelImpl)) :=
  match cache.find? (fun p => p.1 == device_type) with
  | some p => .ok (p.2, cache)
  | none =>
    let cname := className device_type
    match modelModules.find? (fun f => f.1 == device_type) with
    | some f =>
      match f.2.find? (fun c => c.1 == cname) with
      | some c => .ok (c.2, (device_type, c.2) :: cache)
      | none => .error ("No model found for device type " ++ device_type)
    | none =>
      match scanModelModules cname modelModules with
      | some m => .ok (m, (device_type, m) :: cache)
      | none => .error ("No model found for device type " ++ device_type)

/-- C6: `"cisco_xe"` has no module of its own, resolves through the stage-2
alias scan to the Cisco IOS command list, identical to what `"cisco_ios"`
resolves to; and any device type missed by both stages is a resolution
error. -/
theorem cisco_xe_alias_resolution :
    ((get_device_model [] "cisco_xe").toOption.map
        (fun p => p.1.commands) = some ["show version", "show running-config"])
    ∧ ((get_device_model [] "cisco_xe").toOption.map (fun p => p.1.commands) =
        (get_device_model [] "cisco_ios").toOption.map (fun p => p.1.commands))
    ∧ ∀ dt : String,
        modelModules.find? (fun f => f.1 == dt) = none →
        scanModelModules (className dt) modelModules = none →
        (get_device_model [] dt).isOk = false := by
  refine ⟨by decide, by decide, ?_⟩
  intro dt h1 h2
  simp [get_device_model, List.find?_nil, h1, h2, Except.isOk, Except.toBool]

/-- Witness for C6's error stage at `"arista_eos"`: neither a module named
`arista_eos` nor any class `AristaEos` exists, so resolution fails. -/
theorem cisco_xe_alias_resolution_witness :
    (get_device_model [] "arista_eos").isOk = false :=
  cisco_xe_alias_resolution.2.2 "arista_eos" rfl rfl

/-! ## Device cache (`core/database.py`, `DeviceDatabase.upsert_devices`)

The `devices` table is a list of rows (`name` is the primary key; the
timestamps are abstract tick values standing for `CURRENT_TIMESTAMP`).  The
SQL `INSERT ... ON CONFLICT(name) DO UPDATE SET host = excluded.host,
device_type = excluded.device_type, last_backup = CURRENT_TIMESTAMP` is one
conditional row rewrite per device, applied in list order; `created_at`
defaults on insert and is untouched on update. -/

/-- One row of the `devices` table. -/
structure DeviceRow where
  name : String
  host : String
  device_type : String
  last_backup : Nat
  created_at : Nat
  deriving Repr, DecidableEq

/-- One `INSERT ... ON CONFLICT(name) DO UPDATE` statement. -/
def upsertOne (table : List DeviceRow) (d : Device) (now : Nat) :
    List DeviceRow :=
  if table.any (fun r => r.name == d.name) then
    table.map (fun r =>
      if r.name == d.name then
        { r with host := d.host, device_type := d.device_type, last_backup := now }
      else r)
  else table ++ [⟨d.name, d.host, d.device_type, now, now⟩]

/-- Embeds `DeviceDatabase.upsert_devices`: the per-device loop over one
transaction, `CURRENT_TIMESTAMP` frozen to one tick for the call. -/
def upsert_devices (table : List DeviceRow) (devices : List Device)
    (now : Nat) : List DeviceRow :=
  devices.foldl (fun t d => upsertOne t d now) table

/-- The row transformation "advance `last_backup` on every row whose name
is in the device list, and nothing else". -/
def touchNames (L : List Device) (t2 : Nat) (r : DeviceRow) : DeviceRow :=
  if r.name ∈ L.map (fun d => d.name) then { r with last_backup := t2 }
  else r

theorem deviceRow_update_eq (r : DeviceRow) (h dt : String) (t2 : Nat)
    (hh : r.host = h) (hdt : r.device_type = dt) :
    ({ r with host := h, device_type := dt, last_backup := t2 } : DeviceRow) =
      { r with last_backup := t2 } := by
  subst hh
  subst hdt
  rfl

theorem namesOf_upsertOne (t : List DeviceRow) (d : Device) (now : Nat) :
    (upsertOne t d now).map (fun r => r.name) =
      if t.any (fun r => r.name == d.name) then t.map (fun r => r.name)
      else t.map (fun r => r.name) ++ [d.name] := by
  unfold upsertOne
  by_cases h : t.any (fun r => r.name == d.name) = true
  · simp only [h, if_true, List.map_map]
    apply List.map_congr_left
    intro r hr
    simp only [Function.comp]
    split <;> rfl
  · simp only [h, if_false]
    simp

theorem mem_namesOf_upsertOne (t : List DeviceRow) (d : Device) (now : Nat)
    (n : String) (hn : n ∈ t.map (fun r => r.name)) :
    n ∈ (upsertOne t d now).map (fun r => r.name) := by
  rw [namesOf_upsertOne]
  split
  · exact hn
  · exact List.mem_append_left _ hn

theorem self_mem_namesOf_upsertOne (t : List DeviceRow) (d : Device)
    (now : Nat) :
    d.name ∈ (upsertOne t d now).map (fun r => r.name) := by
  rw [namesOf_upsertOne]
  split <;> rename_i h
  · rcases List.any_eq_true.mp h with ⟨r, hr, hname⟩
    have heq : r.name = d.name := beq_iff_eq.mp hname
    rw [← heq]
    exact List.mem_map.mpr ⟨r, hr, rfl⟩
  · exact List.mem_append_right _ (List.mem_singleton.mpr rfl)

theorem nodup_namesOf_upsertOne (t : List DeviceRow) (d : Device) (now : Nat)
    (h : (t.map (fun r => r.name)).Nodup) :
    ((upsertOne t d now).map (fun r => r.name)).Nodup := by
  rw [namesOf_upsertOne]
  split <;> rename_i hany
  · exact h
  · have hnotin : d.name ∉ t.map (fun r => r.name) := by
      intro hmem
      rcases List.mem_map.mp hmem with ⟨r, hr, hname⟩
      exact hany (List.any_eq_true.mpr ⟨r, hr, beq_iff_eq.mpr hname⟩)
    simp [List.nodup_append, h, hnotin]

theorem mem_upsertOne_of_ne (t : List DeviceRow) (d : Device) (now : Nat)
    (r : DeviceRow) (hr : r ∈ t) (hne : r.name ≠ d.name) :
    r ∈ upsertOne t d now := by
  unfold upsertOne
  split
  · refine List.mem_map.mpr ⟨r, hr, ?_⟩
    simp [beq_iff_eq, hne]
  · exact List.mem_append_left _ hr

theorem row_mem_upsertOne (t : List DeviceRow) (d : Device) (now : Nat) :
    ∃ r ∈ upsertOne t d now, r.name = d.name ∧ r.host = d.host ∧
      r.device_type = d.device_type ∧ r.last_backup = now := by
  unfold upsertOne
  split <;> rename_i hany
  · rcases List.any_eq_true.mp hany with ⟨r, hr, hname⟩
    have heq : r.name = d.name := beq_iff_eq.mp hname
    exact ⟨{ r with host := d.host, device_type := d.device_type, last_backup := now },
      List.mem_map.mpr ⟨r, hr, by simp [beq_iff_eq, heq]⟩, heq, rfl, rfl, rfl⟩
  · exact ⟨⟨d.name, d.host, d.device_type, now, now⟩,
      List.mem_append_right _ (List.mem_singleton.mpr rfl), rfl, rfl, rfl, rfl⟩

theorem upsert_devices_cons (t : List DeviceRow) (d : Device)
    (L : List Device) (now : Nat) :
    upsert_devices t (d :: L) now = upsert_devices (upsertOne t d now) L now :=
  rfl

theorem mem_upsert_devices_of_ne (L : List Device) :
    ∀ (t : List DeviceRow) (now : Nat) (r : DeviceRow),
      r ∈ t → (∀ d ∈ L, r.name ≠ d.name) → r ∈ upsert_devices t L now := by
  induction L with
  | nil => intro t now r hr _; exact hr
  | cons d L ih =>
    intro t now r hr hne
    rw [upsert_devices_cons]
    exact ih _ now r
      (mem_upsertOne_of_ne t d now r hr (hne d (List.mem_cons_self d L)))
      (fun d' hd' => hne d' (List.mem_cons_of_mem d hd'))

theorem mem_namesOf_upsert_devices (L : List Device) :
    ∀ (t : List DeviceRow) (now : Nat) (n : String),
      n ∈ t.map (fun r => r.name) →
      n ∈ (upsert_devices t L now).map (fun r => r.name) := by
  induction L with
  | nil => intro t _ n h; exact h
  | cons d L ih =>
    intro t now n h
    exact ih _ now n (mem_namesOf_upsertOne t d now n h)

theorem namesOf_upsert_devices_nodup (L : List Device) :
    ∀ (t : List DeviceRow) (now : Nat),
      (t.map (fun r => r.name)).Nodup →
      ((upsert_devices t L now).map (fun r => r.name)).Nodup := by
  induction L with
  | nil => intro t now h; exact h
  | cons d L ih =>
    intro t now h
    exact ih _ now (nodup_namesOf_upsertOne t d now h)

theorem name_mem_upsert_devices (L : List Device) :
    ∀ (t : List DeviceRow) (now : Nat), ∀ d ∈ L,
      d.name ∈ (upsert_devices t L now).map (fun r => r.name) := by
  induction L with
  | nil => intro t now d hd; exact absurd hd (List.not_mem_nil d)
  | cons d0 L ih =>
    intro t now d hd
    rw [upsert_devices_cons]
    rcases List.mem_cons.mp hd with rfl | hmem
    · exact mem_namesOf_upsert_devices L _ now d.name
        (self_mem_namesOf_upsertOne t d now)
    · exact ih _ now d hmem

theorem row_content_upsert_devices (L : List Device) :
    ∀ (t : List DeviceRow) (now : Nat),
      (L.map (fun d => d.name)).Nodup →
      ∀ d ∈ L, ∃ r ∈ upsert_devices t L now,
        r.name = d.name ∧ r.host = d.host ∧ r.device_type = d.device_type ∧
        r.last_backup = now := by
  induction L with
  | nil => intro t now _ d hd; exact absurd hd (List.not_mem_nil d)
  | cons d0 L ih =>
    intro t now hnd d hd
    have hnd' : (d0.name ∉ L.map (fun x => x.name)) ∧
        (L.map (fun x => x.name)).Nodup := by
      rw [List.map_cons] at hnd
      exact List.nodup_cons.mp hnd
    rw [upsert_devices_cons]
    rcases List.mem_cons.mp hd with rfl | hmem
    · rcases row_mem_upsertOne t d now with ⟨r, hr, hfields⟩
      refine ⟨r, ?_, hfields⟩
      apply mem_upsert_devices_of_ne L _ now r hr
      intro d' hd' hcontra
      exact hnd'.1 (List.mem_map.mpr ⟨d', hd', (hfields.1 ▸ hcontra).symm⟩)
    · exact ih _ now hnd'.2 d hmem

theorem upsert_devices_touch (L : List Device) :
    ∀ (u : List DeviceRow) (t2 : Nat),
      (L.map (fun d => d.name)).Nodup →
      (∀ d ∈ L, ∃ r ∈ u, r.name = d.name) →
      (∀ r ∈ u, ∀ d ∈ L, r.name = d.name →
        r.host = d.host ∧ r.device_type = d.device_type) →
      upsert_devices u L t2 = u.map (touchNames L t2) := by
  induction L with
  | nil =>
    intro u t2 _ _ _
    have h : u.map (touchNames [] t2) = u.map id :=
      List.map_congr_left (fun r _ => by simp [touchNames, id])
    simp [upsert_devices, h]
  | cons d0 L ih =>
    intro u t2 hnd hpres hfields
    have hnd' : (d0.name ∉ L.map (fun x => x.name)) ∧
        (L.map (fun x => x.name)).Nodup := by
      rw [List.map_cons] at hnd
      exact List.nodup_cons.mp hnd
    have hany : u.any (fun r => r.name == d0.name) = true := by
      rcases hpres d0 (List.mem_cons_self d0 L) with ⟨r, hr, hname⟩
      exact List.any_eq_true.mpr ⟨r, hr, beq_iff_eq.mpr hname⟩
    have hstep : upsertOne u d0 t2 = u.map (fun r =>
        if r.name = d0.name then { r with last_backup := t2 } else r) := by
      unfold upsertOne
      rw [hany, if_pos rfl]
      apply List.map_congr_left
      intro r hr
      by_cases h : r.name = d0.name
      · rcases hfields r hr d0 (List.mem_cons_self d0 L) h with ⟨hh, hdt⟩
        rw [if_pos (beq_iff_eq.mpr h), if_pos h]
        exact deviceRow_update_eq r d0.host d0.device_type t2 hh hdt
      · simp [beq_iff_eq, h]
    rw [upsert_devices_cons, hstep]
    have hname_g : ∀ r : DeviceRow,
        ((if r.name = d0.name then { r with last_backup := t2 } else r) :
          DeviceRow).name = r.name := by
      intro r; split <;> rfl
    have hhost_g : ∀ r : DeviceRow,
        ((if r.name = d0.name then { r with last_backup := t2 } else r) :
          DeviceRow).host = r.host := by
      intro r; split <;> rfl
    have hdt_g : ∀ r : DeviceRow,
        ((if r.name = d0.name then { r with last_backup := t2 } else r) :
          DeviceRow).device_type = r.device_type := by
      intro r; split <;> rfl
    rw [ih _ t2 hnd'.2 ?hpres ?hfields]
    case hpres =>
      intro d hd
      rcases hpres d (List.mem_cons_of_mem d0 hd) with ⟨r, hr, hname⟩
      exact ⟨_, List.mem_map.mpr ⟨r, hr, rfl⟩, (hname_g r).trans hname⟩
    case hfields =>
      intro r' hr' d hd hname
      rcases List.mem_map.mp hr' with ⟨r, hr, rfl⟩
      have hn : r.name = d.name := (hname_g r).symm.trans hname
      rcases hfields r hr d (List.mem_cons_of_mem d0 hd) hn with ⟨hh, hdt⟩
      exact ⟨(hhost_g r).trans hh, (hdt_g r).trans hdt⟩
    rw [List.map_map]
    apply List.map_congr_left
    intro r hr
    simp only [Function.comp, touchNames, List.map_cons]
    by_cases h : r.name = d0.name
    · have hnotin : r.name ∉ L.map (fun d => d.name) := by
        rw [h]; exact hnd'.1
      simp [h, hnotin]
    · simp [h, List.mem_cons]

/-- C9: upserting the same device list twice (at ticks `t1` then `t2`)
leaves the cache equal to the once-upserted cache with only `last_backup`
advanced on the list's names (`touchNames` changes nothing else), keeps
names unique, and leaves, for every device of the list, a row carrying
exactly its `host` and `device_type` with the new timestamp — hence
exactly one row per device name. -/
theorem upsert_devices_idempotent (T : List DeviceRow) (L : List Device)
    (t1 t2 : Nat)
    (hT : (T.map (fun r => r.name)).Nodup)
    (hL : (L.map (fun d => d.name)).Nodup) :
    upsert_devices (upsert_devices T L t1) L t2 =
      (upsert_devices T L t1).map (touchNames L t2)
    ∧ ((upsert_devices (upsert_devices T L t1) L t2).map
        (fun r => r.name)).Nodup
    ∧ ∀ d ∈ L, ∃ r ∈ upsert_devices (upsert_devices T L t1) L t2,
        r.name = d.name ∧ r.host = d.host ∧ r.device_type = d.device_type ∧
        r.last_backup = t2 := by
  have hu_nodup := namesOf_upsert_devices_nodup L T t1 hT
  have hpres : ∀ d ∈ L, ∃ r ∈ upsert_devices T L t1, r.name = d.name := by
    intro d hd
    rcases List.mem_map.mp (name_mem_upsert_devices L T t1 d hd) with
      ⟨r, hr, hn⟩
    exact ⟨r, hr, hn⟩
  have hcontent := row_content_upsert_devices L T t1 hL
  have hfields : ∀ r ∈ upsert_devices T L t1, ∀ d ∈ L, r.name = d.name →
      r.host = d.host ∧ r.device_type = d.device_type := by
    intro r hr d hd hname
    rcases hcontent d hd with ⟨r', hr', hn', hh', hdt', -⟩
    have : r = r' :=
      List.inj_on_of_nodup_map hu_nodup hr hr' (hname.trans hn'.symm)
    rw [this]
    exact ⟨hh', hdt'⟩
  have htouch := upsert_devices_touch L (upsert_devices T L t1) t2 hL hpres
    hfields
  refine ⟨htouch, namesOf_upsert_devices_nodup L _ t2 hu_nodup, ?_⟩
  intro d hd
  rcases hcontent d hd with ⟨r, hr, hn, hh, hdt, -⟩
  rw [htouch]
  have hcond : r.name ∈ L.map (fun x => x.name) :=
    List.mem_map.mpr ⟨d, hd, hn.symm⟩
  refine ⟨touchNames L t2 r, List.mem_map.mpr ⟨r, hr, rfl⟩, ?_⟩
  simp only [touchNames, hcond, if_true]
  exact ⟨hn, hh, hdt, trivial⟩

/-- Witness for C9 at a concrete cache: two devices upserted twice; the
second upsert equals the first's table with only `last_backup` touched. -/
theorem upsert_devices_idempotent_witness :
    upsert_devices (upsert_devices []
        [⟨"r1", "10.0.0.1", "cisco_ios", none, none, none⟩,
         ⟨"r2", "10.0.0.2", "routeros", none, none, none⟩] 100)
      [⟨"r1", "10.0.0.1", "cisco_ios", none, none, none⟩,
       ⟨"r2", "10.0.0.2", "routeros", none, none, none⟩] 200 =
      (upsert_devices []
        [⟨"r1", "10.0.0.1", "cisco_ios", none, none, none⟩,
         ⟨"r2", "10.0.0.2", "routeros", none, none, none⟩] 100).map
        (touchNames
          [⟨"r1", "10.0.0.1", "cisco_ios", none, none, none⟩,
           ⟨"r2", "10.0.0.2", "routeros", none, none, none⟩] 200) :=
  (upsert_devices_idempotent []
    [⟨"r1", "10.0.0.1", "cisco_ios", none, none, none⟩,
     ⟨"r2", "10.0.0.2", "routeros", none, none, none⟩] 100 200
    (by decide) (by decide)).1

/-! ## Filesystem sink rotation (`modules/output/filesystem.py`,
`Filesystem.save_backup` and `Filesystem._rotate_backups`)

`save_backup` first picks the directory for this write: with
`organize_by='device'` (the default) it is the one per-device directory
`path/<name>`; with `organize_by='date'` it is `path/<date>/<name>`, a
directory per calendar day.  Inside that directory it writes the snapshot
file (truncating on an equal timestamp, as `open(..., 'w')` does),
repoints that directory's `<name>_latest.cfg` symlink, then rotates: sort
that directory's snapshot files by modification time newest-first and,
when there are more than `retention` of them, unlink every file beyond
the first `retention`.  Both the symlink and `_rotate_backups` therefore
scope a single directory — in date mode one day's directory, never the
device's whole history.  A snapshot file is identified by its timestamp
(the filename embeds it and the modification time equals it) and carries
its content; the `latest` symlink is excluded from rotation by the glob
filter.  A directory has no intrinsic order, so the list order of `files`
is representation only; when rotation deletes, the remaining files are
materialised in sorted order.  A write is a `(day, mtime, content)`
triple: the date string and the timestamped filename are both derived
from the wall clock at write time.

`run_saves_dir` is the shared per-directory core: the write + symlink +
rotation sequence as it acts on whichever directory `save_backup`
selected. -/

/-- One device directory plus the `latest` symlink target. -/
structure FsDir where
  files : List (Nat × String)
  latest : Option Nat
  deriving Repr, DecidableEq

/-- Embeds `open(backup_file, 'w')`: create, or truncate an existing file with the
same timestamped name. -/
def writeFile (files : List (Nat × String)) (t : Nat) (c : String) :
    List (Nat × String) :=
  if files.any (fun f => f.1 == t) then
    files.map (fun f => if f.1 == t then (t, c) else f)
  else files ++ [(t, c)]

/-- Insertion step of the newest-first sort (stable, like Python sort). -/
def insertByMtimeDesc (x : Nat × String) :
    List (Nat × String) → List (Nat × String)
  | [] => [x]
  | y :: ys => if y.1 ≤ x.1 then x :: y :: ys else y :: insertByMtimeDesc x ys

/-- Embeds `backup_files.sort(key=lambda x: x.stat().st_mtime, reverse=True)`. -/
def sortByMtimeDesc : List (Nat × String) → List (Nat × String)
  | [] => []
  | x :: xs => insertByMtimeDesc x (sortByMtimeDesc xs)

/-- Embeds `Filesystem._rotate_backups`: when more than `retention` snapshot files
exist, keep the `retention` newest and unlink the rest. -/
def rotate_backups (retention : Nat) (files : List (Nat × String)) :
    List (Nat × String) :=
  let sorted := sortByMtimeDesc files
  if retention < sorted.length then sorted.take retention else files

/-- Embeds `Filesystem.save_in_dir` for one device at timestamp `t`: write the
snapshot, repoint the `latest` symlink to it, rotate. -/
def save_in_dir (retention : Nat) (s : FsDir) (t : Nat) (c : String) :
    FsDir :=
  { files := rotate_backups retention (writeFile s.files t c),
    latest := some t }

/-- A sequence of `save_in_dir` calls on one device, from an empty
directory. -/
def run_saves_dir (retention : Nat) (s : FsDir)
    (writes : List (Nat × String)) : FsDir :=
  writes.foldl (fun st w => save_in_dir retention st w.1 w.2) s

theorem length_insertByMtimeDesc (x : Nat × String)
    (l : List (Nat × String)) :
    (insertByMtimeDesc x l).length = l.length + 1 := by
  induction l with
  | nil => rfl
  | cons y ys ih =>
    simp only [insertByMtimeDesc]
    split
    · simp
    · simp [ih]

theorem length_sortByMtimeDesc (l : List (Nat × String)) :
    (sortByMtimeDesc l).length = l.length := by
  induction l with
  | nil => rfl
  | cons x xs ih =>
    simp only [sortByMtimeDesc, length_insertByMtimeDesc, ih, List.length_cons]

theorem sortByMtimeDesc_append_max (l : List (Nat × String))
    (w : Nat × String) (hw : ∀ x ∈ l, x.1 < w.1) :
    sortByMtimeDesc (l ++ [w]) = w :: sortByMtimeDesc l := by
  induction l with
  | nil => rfl
  | cons x xs ih =>
    have hx : x.1 < w.1 := hw x (List.mem_cons_self x xs)
    have ihh := ih (fun y hy => hw y (List.mem_cons_of_mem x hy))
    simp only [List.cons_append, sortByMtimeDesc, List.append_eq]
    rw [ihh]
    simp only [insertByMtimeDesc]
    rw [if_neg (by omega)]

theorem sortByMtimeDesc_of_sorted (l : List (Nat × String))
    (h : l.Pairwise (fun a b => b.1 ≤ a.1)) :
    sortByMtimeDesc l = l := by
  induction l with
  | nil => rfl
  | cons x xs ih =>
    rcases List.pairwise_cons.mp h with ⟨hx, hxs⟩
    simp only [sortByMtimeDesc, ih hxs]
    cases xs with
    | nil => rfl
    | cons y ys =>
      simp only [insertByMtimeDesc]
      rw [if_pos (hx y (List.mem_cons_self y ys))]

theorem insertByMtimeDesc_max_last (x : Nat × String)
    (l : List (Nat × String)) (h : ∀ y ∈ l, x.1 < y.1) :
    insertByMtimeDesc x l = l ++ [x] := by
  induction l with
  | nil => rfl
  | cons y ys ih =>
    have hy := h y (List.mem_cons_self y ys)
    simp only [insertByMtimeDesc]
    rw [if_neg (by omega), ih (fun z hz => h z (List.mem_cons_of_mem y hz))]
    rfl

theorem sortByMtimeDesc_of_ascending (l : List (Nat × String))
    (h : l.Pairwise (fun a b => a.1 < b.1)) :
    sortByMtimeDesc l = l.reverse := by
  induction l with
  | nil => rfl
  | cons x xs ih =>
    rcases List.pairwise_cons.mp h with ⟨hx, hxs⟩
    simp only [sortByMtimeDesc, ih hxs]
    rw [insertByMtimeDesc_max_last x xs.reverse
      (fun y hy => hx y (List.mem_reverse.mp hy))]
    simp

theorem reverse_take_sub (l : List (Nat × String)) (k : Nat) :
    l.reverse.take (l.length - k) = (l.drop k).reverse := by
  have h1 : l.reverse = (l.drop k).reverse ++ (l.take k).reverse := by
    rw [← List.reverse_append, List.take_append_drop]
  rw [h1]
  have hlen : (l.drop k).reverse.length = l.length - k := by simp
  rw [← hlen, List.take_left]

/-- The rotation invariant for one device, by induction over the write
sequence: below capacity the directory holds all writes; above capacity it
holds exactly the `N` most recent, newest first; the symlink tracks the
last write; every file on disk was written; and the last write is on
disk. -/
theorem run_saves_dir_invariant (N : Nat) (hN : 0 < N)
    (writes : List (Nat × String))
    (hp : writes.Pairwise (fun a b => a.1 < b.1)) :
    (writes.length ≤ N → (run_saves_dir N ⟨[], none⟩ writes).files = writes)
    ∧ (N < writes.length →
        (run_saves_dir N ⟨[], none⟩ writes).files =
          (writes.drop (writes.length - N)).reverse)
    ∧ (run_saves_dir N ⟨[], none⟩ writes).latest =
        writes.getLast?.map (fun x => x.1)
    ∧ (∀ x ∈ (run_saves_dir N ⟨[], none⟩ writes).files, x ∈ writes)
    ∧ (∀ x, writes.getLast? = some x →
        x ∈ (run_saves_dir N ⟨[], none⟩ writes).files) := by
  induction writes using List.reverseRecOn with
  | nil =>
    refine ⟨fun _ => rfl, fun h => absurd h (by simp), rfl, ?_, ?_⟩
    · intro x hx
      exact absurd hx (List.not_mem_nil x)
    · intro x hx
      exact absurd hx (by simp)
  | append_singleton l w ih =>
    rcases List.pairwise_append.mp hp with ⟨hl, -, hcross⟩
    have hfresh : ∀ a ∈ l, a.1 < w.1 := by
      intro a ha
      exact hcross a ha w (List.mem_singleton.mpr rfl)
    rcases ih hl with ⟨inv1, inv2, -, inv4, -⟩
    have hsplit : run_saves_dir N ⟨[], none⟩ (l ++ [w]) =
        save_in_dir N (run_saves_dir N ⟨[], none⟩ l) w.1 w.2 := by
      simp [run_saves_dir, List.foldl_append]
    set u := run_saves_dir N ⟨[], none⟩ l with hu
    have hfw : ∀ x ∈ u.files, x.1 < w.1 := fun x hx => hfresh x (inv4 x hx)
    have hany : (u.files.any (fun f => f.1 == w.1)) = false := by
      rw [Bool.eq_false_iff]
      intro hcontra
      rcases List.any_eq_true.mp hcontra with ⟨x, hx, hbeq⟩
      have h1 := hfw x hx
      have h2 := beq_iff_eq.mp hbeq
      omega
    have hwrite : writeFile u.files w.1 w.2 = u.files ++ [w] := by
      unfold writeFile
      rw [hany]
      simp
    have hlast : (l ++ [w]).getLast? = some w := List.getLast?_concat l
    by_cases hlen : l.length < N
    · -- still below capacity: no rotation
      have hfiles_u : u.files = l := inv1 (Nat.le_of_lt hlen)
      have hrot : rotate_backups N (u.files ++ [w]) = u.files ++ [w] := by
        simp only [rotate_backups]
        rw [if_neg]
        rw [length_sortByMtimeDesc]
        simp only [List.length_append, List.length_singleton, hfiles_u]
        omega
      have hfiles : (run_saves_dir N ⟨[], none⟩ (l ++ [w])).files = l ++ [w] := by
        rw [hsplit]
        simp only [save_in_dir]
        rw [hwrite, hrot, hfiles_u]
      refine ⟨fun _ => hfiles, ?_, ?_, ?_, ?_⟩
      · intro hgt
        simp only [List.length_append, List.length_singleton] at hgt
        omega
      · rw [hsplit, hlast]
        rfl
      · intro x hx
        rw [hfiles] at hx
        exact hx
      · intro x hx
        rw [hlast] at hx
        injection hx with hx
        rw [hfiles, ← hx]
        exact List.mem_append_right l (List.mem_singleton.mpr rfl)
    · -- at or above capacity: rotation keeps the N newest
      have hNle : N ≤ l.length := Nat.le_of_not_lt hlen
      set kept := l.drop (l.length - N) with hkept
      have hklen : kept.length = N := by
        rw [hkept, List.length_drop]
        omega
      have hkp : kept.Pairwise (fun a b => a.1 < b.1) :=
        hl.sublist (List.drop_sublist _ l)
      have hsorteq : sortByMtimeDesc u.files = kept.reverse := by
        by_cases heq : l.length ≤ N
        · have hfiles_u : u.files = l := inv1 heq
          have hkl : kept = l := by
            rw [hkept]
            have h0 : l.length - N = 0 := by omega
            rw [h0, List.drop_zero]
          rw [hfiles_u, hkl]
          exact sortByMtimeDesc_of_ascending l hl
        · have hfiles_u : u.files = kept.reverse := inv2 (by omega)
          rw [hfiles_u]
          apply sortByMtimeDesc_of_sorted
          rw [List.pairwise_reverse]
          exact hkp.imp (fun h => Nat.le_of_lt h)
      obtain ⟨M, hM⟩ : ∃ M, N = M + 1 := ⟨N - 1, by omega⟩
      have hfiles : (run_saves_dir N ⟨[], none⟩ (l ++ [w])).files =
          w :: (kept.drop 1).reverse := by
        rw [hsplit]
        simp only [save_in_dir, rotate_backups]
        rw [hwrite, sortByMtimeDesc_append_max u.files w hfw, hsorteq]
        rw [if_pos (by
          simp only [List.length_cons, List.length_reverse, hklen]
          omega)]
        rw [hM, List.take_succ_cons]
        have htk : kept.reverse.take M = (kept.drop 1).reverse := by
          have hM1 : M = kept.length - 1 := by omega
          rw [hM1]
          exact reverse_take_sub kept 1
        rw [htk]
      have htarget : ((l ++ [w]).drop ((l ++ [w]).length - N)).reverse =
          w :: (kept.drop 1).reverse := by
        have h1 : (l ++ [w]).length - N = (l.length - N) + 1 := by
          simp only [List.length_append, List.length_singleton]
          omega
        rw [h1, List.drop_append_of_le_length (by omega)]
        have h2 : l.drop ((l.length - N) + 1) = kept.drop 1 := by
          rw [hkept, List.drop_drop, Nat.add_comm]
        rw [h2, List.reverse_append]
        simp
      refine ⟨?_, fun _ => hfiles.trans htarget.symm, ?_, ?_, ?_⟩
      · intro hle
        simp only [List.length_append, List.length_singleton] at hle
        omega
      · rw [hsplit, hlast]
        rfl
      · intro x hx
        rw [hfiles] at hx
        rcases List.mem_cons.mp hx with rfl | hmem
        · exact List.mem_append_right l (List.mem_singleton.mpr rfl)
        · have hx1 : x ∈ kept.drop 1 := List.mem_reverse.mp hmem
          have hx2 : x ∈ kept := List.drop_subset 1 kept hx1
          have hx3 : x ∈ l := List.drop_subset (l.length - N) l hx2
          exact List.mem_append_left [w] hx3
      · intro x hx
        rw [hlast] at hx
        injection hx with hx
        rw [hfiles, ← hx]
        exact List.mem_cons_self w ((kept.drop 1).reverse)


/-- Values of `config.get('organize_by', 'device')` that `save_backup`
branches on. -/
inductive OrganizeBy where
  | device
  | date
  deriving Repr, DecidableEq

/-- The filesystem sink's tree for one device: the directories that hold
this device's snapshots, keyed `none` for the per-device directory and
`some day` for a date directory (`mkdir(parents=True, exist_ok=True)`
makes an absent directory behave as an empty one). -/
structure FsState where
  dirs : List (Option Nat × FsDir)
  deriving Repr, DecidableEq

/-- Look up a directory, an absent one reading as empty. -/
def getDir (dirs : List (Option Nat × FsDir)) (k : Option Nat) : FsDir :=
  ((dirs.find? (fun p => p.1 == k)).map (fun p => p.2)).getD ⟨[], none⟩

/-- Store a directory back into the tree. -/
def setDir (dirs : List (Option Nat × FsDir)) (k : Option Nat)
    (d : FsDir) : List (Option Nat × FsDir) :=
  if dirs.any (fun p => p.1 == k) then
    dirs.map (fun p => if p.1 == k then (k, d) else p)
  else dirs ++ [(k, d)]

/-- Embeds `Filesystem.save_backup` for one device at day `day` and
timestamp `t`: select the directory by `organize_by` (the per-device
directory, or this day's directory), then write the snapshot there,
repoint that directory's `latest` symlink and rotate that directory. -/
def save_backup (org : OrganizeBy) (retention : Nat) (s : FsState)
    (day t : Nat) (c : String) : FsState :=
  let k : Option Nat := match org with
    | .device => none
    | .date => some day
  ⟨setDir s.dirs k (save_in_dir retention (getDir s.dirs k) t c)⟩

/-- A sequence of `save_backup` calls for one device, from an empty base
directory; each write is `(day, mtime, content)`. -/
def run_saves (org : OrganizeBy) (retention : Nat) (s : FsState)
    (writes : List (Nat × Nat × String)) : FsState :=
  writes.foldl (fun st w => save_backup org retention st w.1 w.2.1 w.2.2) s

/-- The device's stored history: every snapshot file under the sink's
tree for this device, across all of its directories (what
`get_device_backups` enumerates with `rglob` in date mode). -/
def deviceHistory (s : FsState) : List (Nat × String) :=
  (s.dirs.map (fun p => p.2.files)).flatten

/-- The `<name>_latest.cfg` symlink targets present in the device's tree,
one per directory; `get_device_last_backup_content` resolves whichever of
these an unordered `rglob` finds first. -/
def latestTargets (s : FsState) : List (Option Nat) :=
  s.dirs.map (fun p => p.2.latest)

theorem run_saves_device_eq (N : Nat) (writes : List (Nat × Nat × String)) :
    ∀ d : FsDir,
      run_saves .device N ⟨[(none, d)]⟩ writes =
        ⟨[(none, run_saves_dir N d (writes.map (fun w => w.2)))]⟩ := by
  induction writes with
  | nil => intro d; rfl
  | cons w ws ih =>
    intro d
    show run_saves .device N
      (save_backup .device N ⟨[(none, d)]⟩ w.1 w.2.1 w.2.2) ws = _
    have hstep : save_backup .device N ⟨[(none, d)]⟩ w.1 w.2.1 w.2.2 =
        ⟨[(none, save_in_dir N d w.2.1 w.2.2)]⟩ := rfl
    rw [hstep, ih]
    rfl

theorem run_saves_device_start (N : Nat) (w : Nat × Nat × String)
    (ws : List (Nat × Nat × String)) :
    run_saves .device N ⟨[]⟩ (w :: ws) =
      ⟨[(none, run_saves_dir N ⟨[], none⟩
        ((w :: ws).map (fun x => x.2)))]⟩ := by
  show run_saves .device N
    (save_backup .device N ⟨[]⟩ w.1 w.2.1 w.2.2) ws = _
  have h0 : save_backup .device N ⟨[]⟩ w.1 w.2.1 w.2.2 =
      ⟨[(none, save_in_dir N ⟨[], none⟩ w.2.1 w.2.2)]⟩ := rfl
  rw [h0, run_saves_device_eq]
  rfl

/-- C1 (amended to the per-device layout and retention `N ≥ 1`): with
`organize_by='device'`, after `K` strictly-later-stamped snapshots with
`N < K`, the device's history holds exactly the `N` most recent (newest
first), the single `latest` symlink points to the most recently written
snapshot, and the snapshot just written survives the rotation of its own
`save_backup`. -/
theorem filesystem_rotation (N : Nat) (writes : List (Nat × Nat × String))
    (hN : 0 < N) (hinc : writes.Pairwise (fun a b => a.2.1 < b.2.1))
    (hK : N < writes.length) :
    deviceHistory (run_saves .device N ⟨[]⟩ writes) =
      ((writes.drop (writes.length - N)).map (fun w => w.2)).reverse
    ∧ (∀ w, writes.getLast? = some w →
        latestTargets (run_saves .device N ⟨[]⟩ writes) = [some w.2.1])
    ∧ (∀ w, writes.getLast? = some w →
        w.2 ∈ deviceHistory (run_saves .device N ⟨[]⟩ writes)) := by
  obtain ⟨w0, ws, rfl⟩ : ∃ w0 ws, writes = w0 :: ws := by
    cases writes with
    | nil => exact absurd hK (by simp)
    | cons a l => exact ⟨a, l, rfl⟩
  have hbridge := run_saves_device_start N w0 ws
  have hpair : ((w0 :: ws).map (fun x => x.2)).Pairwise
      (fun a b => a.1 < b.1) := List.pairwise_map.mpr hinc
  have hlen : ((w0 :: ws).map (fun x => x.2)).length = (w0 :: ws).length :=
    List.length_map _ _
  rcases run_saves_dir_invariant N hN ((w0 :: ws).map (fun x => x.2)) hpair
    with ⟨-, h2, h3, -, h5⟩
  have hKm : N < ((w0 :: ws).map (fun x => x.2)).length := by
    rw [hlen]; exact hK
  have hdh : ∀ dir : FsDir, deviceHistory ⟨[(none, dir)]⟩ = dir.files := by
    intro dir
    simp [deviceHistory]
  have hlt : ∀ dir : FsDir, latestTargets ⟨[(none, dir)]⟩ = [dir.latest] := by
    intro dir
    simp [latestTargets]
  refine ⟨?_, ?_, ?_⟩
  · rw [hbridge, hdh, h2 hKm, hlen, List.map_drop]
  · intro w hw
    rw [hbridge, hlt, h3, List.getLast?_map, hw]
    rfl
  · intro w hw
    have hw2 : ((w0 :: ws).map (fun x => x.2)).getLast? = some w.2 := by
      rw [List.getLast?_map, hw]
      rfl
    rw [hbridge, hdh]
    exact h5 w.2 hw2

/-- Witness for C1 at retention 1, per-device layout, two same-day writes:
only the newest file remains, the one `latest` symlink points at it, and
it survived its own rotation. -/
theorem filesystem_rotation_witness :
    deviceHistory (run_saves .device 1 ⟨[]⟩ [(0, 0, "a"), (0, 1, "b")]) =
      (([(0, 0, "a"), (0, 1, "b")].drop
        ([(0, 0, "a"), (0, 1, "b")].length - 1)).map (fun w => w.2)).reverse
    ∧ latestTargets (run_saves .device 1 ⟨[]⟩ [(0, 0, "a"), (0, 1, "b")]) =
      [some 1]
    ∧ (1, "b") ∈ deviceHistory
        (run_saves .device 1 ⟨[]⟩ [(0, 0, "a"), (0, 1, "b")]) :=
  ⟨(filesystem_rotation 1 [(0, 0, "a"), (0, 1, "b")] (by decide) (by decide)
      (by decide)).1,
   (filesystem_rotation 1 [(0, 0, "a"), (0, 1, "b")] (by decide) (by decide)
      (by decide)).2.1 (0, 1, "b") rfl,
   (filesystem_rotation 1 [(0, 0, "a"), (0, 1, "b")] (by decide) (by decide)
      (by decide)).2.2 (0, 1, "b") rfl⟩

/-- C1 counterexamples.  First, retention `N = 0` (`K = 1 > N`): the
rotation inside the very `save_backup` that wrote the snapshot deletes
it — the directory ends empty while `latest` dangles on the deleted
file.  Second, `organize_by='date'` with retention `N = 1` and three
writes across two days (`K = 3 > N`): rotation only ever scopes one
day's directory, so afterwards the device's history still holds two
snapshots — the stale day-0 file next to the day-1 file — and two
per-day `latest` symlinks exist, one pointing at the stale timestamp 0
rather than the most recent write 2, so an unordered `rglob` lookup may
resolve the stale one.  So the claim is false as stated over every
retention count and configuration. -/
theorem rotation_claim_counterexamples :
    (deviceHistory (run_saves .device 0 ⟨[]⟩ [(0, 0, "c0")]) = []
      ∧ latestTargets (run_saves .device 0 ⟨[]⟩ [(0, 0, "c0")]) = [some 0])
    ∧ (deviceHistory
        (run_saves .date 1 ⟨[]⟩ [(0, 0, "a"), (1, 1, "b"), (1, 2, "c")]) =
        [(0, "a"), (2, "c")]
      ∧ latestTargets
        (run_saves .date 1 ⟨[]⟩ [(0, 0, "a"), (1, 1, "b"), (1, 2, "c")]) =
        [some 0, some 2]) := by
  decide

end Edna